import Mathlib

/-!
Verification of the `Queue` core of mrq (`mrq/queue.py`) against its
specification.  The backing store (redis) is modelled explicitly:

* a redis LIST is a `List PyStr` (head = index 0);
* a redis sorted set (ZSET) is a `List (PyStr × ℚ)` kept in rank order
  (ascending score), members unique;
* a redis SET is a `List PyStr` with unique members;
* scores / timestamps are rationals (`time.time()` is passed in explicitly).

Python 2 `str` values are byte strings; we model them as `List Nat`
(one entry per byte).  The helper `pys` turns a Lean string literal into
this representation for readability of concrete inputs.
-/

/-- Python 2 byte string: a list of byte values. -/
abbrev PyStr := List Nat

/-- Readable literal helper: the byte string of an ASCII Lean string. -/
def pys (s : String) : PyStr := s.toList.map Char.toNat

/-- `startsWith s t`: `t` is a prefix of `s` (bytewise). -/
def startsWith : PyStr → PyStr → Bool
  | _, [] => true
  | [], _ :: _ => false
  | c :: s, d :: t => c == d && startsWith s t

/-- `hasSub s t`: `t` occurs as a contiguous substring of `s`
(Python `t in s`). -/
def hasSub : PyStr → PyStr → Bool
  | [], t => startsWith [] t
  | c :: s, t => startsWith (c :: s) t || hasSub s t

/-- `endsWith s t`: `t` is a suffix of `s`.  This is exactly Python's
`s[-len(t):] == t` for nonempty `t` (a short `s` yields a short slice that
cannot be equal). -/
def endsWith (s t : PyStr) : Bool := startsWith s.reverse t.reverse

/-- The flags of a `Queue` object, together with its (reverse-stripped) id.
In the source the five flags are class attributes defaulting to `False`,
overwritten in `__init__`. -/
structure Queue where
  id : PyStr
  is_raw : Bool := false
  is_timed : Bool := false
  is_sorted : Bool := false
  is_set : Bool := false
  is_reverse : Bool := false
  deriving Repr, DecidableEq

/-- `Queue.__init__` for a string argument (`mrq/queue.py` lines 24–47):
strip a trailing `"_reverse"` (setting `is_reverse`), then run the four
sequential substring tests on the remaining id. -/
def Queue.make (queue_id : PyStr) : Queue :=
  let q0 : Queue :=
    if endsWith queue_id (pys "_reverse") then
      { id := queue_id.take (queue_id.length - 8), is_reverse := true }
    else
      { id := queue_id }
  let q1 := if hasSub q0.id (pys "_raw") then { q0 with is_raw := true } else q0
  let q2 := if hasSub q1.id (pys "_set") then { q1 with is_set := true, is_raw := true } else q1
  let q3 := if hasSub q2.id (pys "_timed") then { q2 with is_timed := true, is_sorted := true } else q2
  if hasSub q3.id (pys "_sorted") then { q3 with is_sorted := true } else q3

/-! ### The hex codec (Python 2 `str.decode('hex')` / `str.encode('hex')`) -/

/-- Value of one hex digit byte; the Python hex codec accepts `0-9`,
`a-f` and `A-F`. -/
def hexVal? (c : Nat) : Option Nat :=
  if 48 ≤ c ∧ c ≤ 57 then some (c - 48)
  else if 97 ≤ c ∧ c ≤ 102 then some (c - 87)
  else if 65 ≤ c ∧ c ≤ 70 then some (c - 55)
  else none

/-- Lowercase hex digit byte for a value `< 16`. -/
def digitChar (n : Nat) : Nat := if n < 10 then 48 + n else 87 + n

/-- `s.decode('hex')`: pairs of hex digits to bytes; fails on odd length
or a non-hex byte. -/
def hexDecode : PyStr → Option PyStr
  | [] => some []
  | [_] => none
  | c1 :: c2 :: rest =>
    match hexVal? c1, hexVal? c2, hexDecode rest with
    | some h, some l, some r => some ((16 * h + l) :: r)
    | _, _, _ => none

/-- `s.encode('hex')`: each byte to two lowercase hex digits. -/
def hexEncode (s : PyStr) : PyStr :=
  s.flatMap (fun b => [digitChar (b / 16 % 16), digitChar (b % 16)])

/-- A byte that is a lowercase hex digit. -/
def isLowerHex (c : Nat) : Bool := (48 ≤ c ∧ c ≤ 57) || (97 ≤ c ∧ c ≤ 102)

/-- A canonical job id as stored by mrq: lowercase hex text of even length
(bson ObjectIds render as 24 lowercase hex digits). -/
def isCanonicalId (s : PyStr) : Bool := s.all isLowerHex && s.length % 2 == 0

/-- `Queue.serialize_job_ids` (lines 88–95).  Identity on empty input or
when the process uses large ids; otherwise each id is hex-decoded into its
packed binary form.  Decoding can fail (Python would raise), hence
`Option`.  The `isinstance(job_ids[0], ObjectId)` branch, which stores
`x.binary` for ObjectId-typed inputs, is outside this model: ids are
modelled in their byte-string form. -/
def serialize_job_ids (use_large_ids : Bool) (job_ids : List PyStr) :
    Option (List PyStr) :=
  if job_ids.length == 0 || use_large_ids then some job_ids
  else job_ids.mapM hexDecode

/-- `Queue.unserialize_job_ids` (lines 97–102). -/
def unserialize_job_ids (use_large_ids : Bool) (job_ids : List PyStr) :
    List PyStr :=
  if job_ids.length == 0 || use_large_ids then job_ids
  else job_ids.map hexEncode

/-! ### Redis data-structure primitives

A sorted set is represented in rank order (ascending score); a SET keeps
unique members in an arbitrary fixed order. -/

/-- Insert an entry after every entry with score `≤ s` (score order kept). -/
def zinsert (z : List (PyStr × ℚ)) (m : PyStr) (s : ℚ) : List (PyStr × ℚ) :=
  match z with
  | [] => [(m, s)]
  | p :: rest => if p.2 ≤ s then p :: zinsert rest m s else (m, s) :: p :: rest

/-- Redis `ZADD`: drop any old entry for the member, insert at the new
score position. -/
def zadd (z : List (PyStr × ℚ)) (m : PyStr) (s : ℚ) : List (PyStr × ℚ) :=
  zinsert (z.filter (fun p => p.1 ≠ m)) m s

/-- `ZADD` of a batch of (member, score) pairs. -/
def zaddList (z : List (PyStr × ℚ)) (l : List (PyStr × ℚ)) : List (PyStr × ℚ) :=
  List.foldl (fun acc p => zadd acc p.1 p.2) z l

/-- Redis `ZREM`: remove all entries whose member is listed. -/
def zrem (z : List (PyStr × ℚ)) (members : List PyStr) : List (PyStr × ℚ) :=
  z.filter (fun p => !(members.contains p.1))

/-- `ZCOUNT key -inf hi` (inclusive upper bound). -/
def zcountLe (z : List (PyStr × ℚ)) (hi : ℚ) : Nat :=
  z.countP (fun p => decide (p.2 ≤ hi))

/-- `ZCOUNT key lo +inf` (inclusive lower bound). -/
def zcountGe (z : List (PyStr × ℚ)) (lo : ℚ) : Nat :=
  z.countP (fun p => decide (lo ≤ p.2))

/-- `ZCOUNT key -inf (hi` (exclusive upper bound). -/
def zcountLt (z : List (PyStr × ℚ)) (hi : ℚ) : Nat :=
  z.countP (fun p => decide (p.2 < hi))

/-- `ZCOUNT key lo (hi`: members with `lo ≤ score < hi`. -/
def zcountCo (z : List (PyStr × ℚ)) (lo hi : ℚ) : Nat :=
  z.countP (fun p => decide (lo ≤ p.2) && decide (p.2 < hi))

/-- Redis `SADD` of a batch (duplicates collapse). -/
def sadd (s : List PyStr) (members : List PyStr) : List PyStr :=
  List.foldl (fun acc m => if acc.contains m then acc else acc ++ [m]) s members

/-- Redis `LREM key 1 m`: remove the first occurrence of `m`. -/
def lremOne (l : List PyStr) (m : PyStr) : List PyStr :=
  match l with
  | [] => []
  | x :: r => if x == m then r else x :: lremOne r m

/-- Redis `LRANGE`/`ZRANGE` index semantics: `start`/`stop` are inclusive,
negative indices count from the end, out-of-range indices are clamped and
an empty range yields `[]`. -/
def redisRange {α : Type} (l : List α) (start stop : Int) : List α :=
  let n : Int := l.length
  let s := max (if start < 0 then n + start else start) 0
  let e := min (if stop < 0 then n + stop else stop) (n - 1)
  if e < s then [] else (l.drop s.toNat).take (e - s + 1).toNat

/-- The backing structure stored at the queue key `P:q:<id>`.  A given
queue uses exactly one of the three shapes, selected by its flags. -/
structure QueueState where
  qlist : List PyStr := []
  zset : List (PyStr × ℚ) := []
  sset : List PyStr := []
  deriving Repr, DecidableEq

/-- `Queue.size` (lines 104–115). -/
def size (q : Queue) (st : QueueState) : Nat :=
  if q.is_sorted then st.zset.length
  else if q.is_set then st.sset.length
  else st.qlist.length

/-- `Queue.count_jobs_to_dequeue` (lines 117–129): a timed queue counts
members with score `≤ time.time()`, any other queue delegates to `size`. -/
def count_jobs_to_dequeue (q : Queue) (st : QueueState) (now : ℚ) : Nat :=
  if q.is_timed then zcountLe st.zset now else size q st

/-- `Queue._get_queue_content` (lines 146–161).  A SET queue is read with
`SRANDMEMBER key limit`, which returns up to `limit` arbitrary distinct
members; the model fixes that arbitrary choice to the first `limit`
members of the representation.  Note that `skip` is not passed to the SET
branch. -/
def get_queue_content (q : Queue) (st : QueueState) (skip limit : Nat) : List PyStr :=
  if q.is_sorted then
    redisRange (st.zset.map Prod.fst) skip ((skip : Int) + limit - 1)
  else if q.is_set then
    st.sset.take limit
  else
    redisRange st.qlist skip ((skip : Int) + limit - 1)

/-- `Queue.list_raw_jobs` (lines 139–144). -/
def list_raw_jobs (q : Queue) (st : QueueState) (skip limit : Nat) :
    Except String (List PyStr) :=
  if !q.is_raw then .error "Queue is not raw"
  else .ok (get_queue_content q st skip limit)

/-- `Queue.list_job_ids` (lines 131–137). -/
def list_job_ids (q : Queue) (large : Bool) (st : QueueState) (skip limit : Nat) :
    Except String (List PyStr) :=
  if q.is_raw then .error "cannot list job ids from a raw queue"
  else .ok (unserialize_job_ids large (get_queue_content q st skip limit))

/-- `Queue.get_sorted_graph` (lines 163–189): `slices` bucket counts via
`ZCOUNT lo (hi`, then, when `include_inf`, a `≥ stop` count and a
`< start` count are appended and the produced list `data` is returned as
`data[-1:] + data[:-1]`.  The `exact` flag only chooses whether the
pipeline is transactional and has no effect on the value read here. -/
def get_sorted_graph (q : Queue) (z : List (PyStr × ℚ)) (start stop : ℚ)
    (slices : Nat) (include_inf : Bool) : Except String (List Nat) :=
  if !q.is_sorted then .error "Not a sorted queue"
  else
    let interval : ℚ := (stop - start) / slices
    let buckets := (List.range slices).map
      (fun i => zcountCo z (start + i * interval) (start + (i + 1) * interval))
    let data := if include_inf then buckets ++ [zcountGe z stop, zcountLt z start] else buckets
    .ok (if include_inf then data.drop (data.length - 1) ++ data.take (data.length - 1) else data)

/-- A metric emission: name and amount. -/
abbrev Metric := PyStr × Nat

/-- The argument of `enqueue_job_ids` / `enqueue_raw_jobs`: either a plain
sequence of ids or a dict of id → score. -/
inductive JobIdsArg where
  | ids (l : List PyStr)
  | scored (l : List (PyStr × ℚ))
  deriving Repr, DecidableEq

/-- `len(job_ids)`. -/
def JobIdsArg.len : JobIdsArg → Nat
  | .ids l => l.length
  | .scored l => l.length

/-- `Queue.enqueue_job_ids` (lines 237–265).  The empty-input check comes
first (before the raw-queue check).  Sorted branch: a plain sequence on a
timed queue is scored at `now`; a dict keeps its scores against serialized
keys; a plain sequence on a sorted non-timed queue hits
`job_ids.keys()` and raises.  List branch: `RPUSH` of the serialized ids
(a dict argument would reach `serialize_job_ids` and fail on `job_ids[0]`
unless large ids are configured, in which case its keys are pushed).
Metrics are emitted after the store write. -/
def enqueue_job_ids (q : Queue) (large : Bool) (st : QueueState)
    (arg : JobIdsArg) (now : ℚ) : Except String (QueueState × List Metric) :=
  if arg.len == 0 then .ok (st, [])
  else if q.is_raw then .error "cannot queue regular jobs on a raw queue"
  else
    let metrics : List Metric :=
      [(pys "queues." ++ q.id ++ pys ".enqueued", arg.len),
       (pys "queues.all.enqueued", arg.len)]
    if q.is_sorted then
      match arg with
      | .ids l =>
        if q.is_timed then
          match serialize_job_ids large l with
          | none => .error "TypeError: non-hex id"
          | some ser => .ok ({ st with zset := zaddList st.zset (ser.map (fun m => (m, now))) }, metrics)
        else .error "AttributeError: list object has no attribute keys"
      | .scored l =>
        match serialize_job_ids large (l.map Prod.fst) with
        | none => .error "TypeError: non-hex id"
        | some keys => .ok ({ st with zset := zaddList st.zset (keys.zip (l.map Prod.snd)) }, metrics)
    else
      match arg with
      | .ids l =>
        match serialize_job_ids large l with
        | none => .error "TypeError: non-hex id"
        | some ser => .ok ({ st with qlist := st.qlist ++ ser }, metrics)
      | .scored l =>
        if large then .ok ({ st with qlist := st.qlist ++ l.map Prod.fst }, metrics)
        else .error "KeyError: 0"

/-- `Queue.enqueue_raw_jobs` (lines 267–294).  Raw payloads are stored
unserialized.  A plain sequence on a timed queue is scored at `now`; a
dict keeps its scores; a plain sequence on a sorted non-timed queue
reaches `zadd(**list)` and raises.  On a SET or LIST queue a dict argument
iterates over its keys. -/
def enqueue_raw_jobs (q : Queue) (st : QueueState) (arg : JobIdsArg) (now : ℚ) :
    Except String (QueueState × List Metric) :=
  if !q.is_raw then .error "cannot queue raw jobs in a regular queue"
  else if arg.len == 0 then .ok (st, [])
  else
    let metrics : List Metric :=
      [(pys "queues." ++ q.id ++ pys ".enqueued", arg.len),
       (pys "queues.all.enqueued", arg.len)]
    if q.is_sorted then
      match arg with
      | .ids l =>
        if q.is_timed then
          .ok ({ st with zset := zaddList st.zset (l.map (fun m => (m, now))) }, metrics)
        else .error "TypeError: zadd of a plain sequence"
      | .scored l => .ok ({ st with zset := zaddList st.zset l }, metrics)
    else if q.is_set then
      match arg with
      | .ids l => .ok ({ st with sset := sadd st.sset l }, metrics)
      | .scored l => .ok ({ st with sset := sadd st.sset (l.map Prod.fst) }, metrics)
    else
      match arg with
      | .ids l => .ok ({ st with qlist := st.qlist ++ l }, metrics)
      | .scored l => .ok ({ st with qlist := st.qlist ++ l.map Prod.fst }, metrics)

/-- `Queue.remove_raw_jobs` (lines 296–319). -/
def remove_raw_jobs (q : Queue) (st : QueueState) (params : List PyStr) :
    Except String (QueueState × List Metric) :=
  if !q.is_raw then .error "cannot remove raw jobs in a regular queue"
  else if params.length == 0 then .ok (st, [])
  else
    let metrics : List Metric :=
      [(pys "queues." ++ q.id ++ pys ".removed", params.length),
       (pys "queues.all.removed", params.length)]
    if q.is_sorted then .ok ({ st with zset := zrem st.zset params }, metrics)
    else if q.is_set then
      .ok ({ st with sset := st.sset.filter (fun m => !(params.contains m)) }, metrics)
    else
      .ok ({ st with qlist := List.foldl lremOne st.qlist params }, metrics)

/-- `Queue.empty` (lines 321–323): `DEL` of the backing key. -/
def emptyQueue (_st : QueueState) : QueueState := {}

/-! ### The atomic dequeue primitives

The three Lua scripts live in `mrq/redishelpers.py`, which is not part of
the sources under verification; they are modelled from the spec. -/

/-- Modelled from the spec: `redis_zaddbyscore` (mrq.redishelpers, not under
src) — the score-rewrite pushback primitive: atomically select up to
`count` members with score `≤ maxscore` (the call site always passes
`-inf` as lower bound and offset 0), rewrite each selected member's score
to `newscore` in place, and return the selected members. -/
def redis_zaddbyscore (z : List (PyStr × ℚ)) (maxscore : ℚ) (count : Nat)
    (newscore : ℚ) : List PyStr × List (PyStr × ℚ) :=
  let selected := ((z.filter (fun p => decide (p.2 ≤ maxscore))).take count).map Prod.fst
  (selected, z.map (fun p => if selected.contains p.1 then (p.1, newscore) else p))

/-- Modelled from the spec: `redis_zpopbyscore` (mrq.redishelpers, not under
src) — atomically remove and return up to `count` members with score
`≤ maxscore`. -/
def redis_zpopbyscore (z : List (PyStr × ℚ)) (maxscore : ℚ) (count : Nat) :
    List PyStr × List (PyStr × ℚ) :=
  let selected := ((z.filter (fun p => decide (p.2 ≤ maxscore))).take count).map Prod.fst
  (selected, z.filter (fun p => !(selected.contains p.1)))

/-- Modelled from the spec: `redis_lpopsafe` (mrq.redishelpers, not under
src) — one indivisible operation that pops up to `count` ids from the head
of the list when `left` (its tail otherwise, yielding them tail-first) and
records each popped id in the started sorted set with score `now`. -/
def redis_lpopsafe (queue : List PyStr) (started : List (PyStr × ℚ))
    (count : Nat) (now : ℚ) (left : Bool) :
    List PyStr × List PyStr × List (PyStr × ℚ) :=
  let popped := if left then queue.take count else queue.reverse.take count
  let rest := if left then queue.drop count else (queue.reverse.drop count).reverse
  (popped, rest, List.foldl (fun z m => zadd z m now) started popped)

/-- Modelled from the spec: `redis_group_command` (mrq.redishelpers, not
under src) — issue `count` single pops (`SPOP`/`LPOP`) and collect the
non-nil results; for `SPOP` the arbitrary choice is fixed to the first
members of the SET representation. -/
def redis_group_command (l : List PyStr) (count : Nat) : List PyStr × List PyStr :=
  (l.take count, l.drop count)

/-- The raw-timed branch of `Queue.dequeue_jobs` (lines 351–373): with
`pushback_seconds > 0` the scores of due members are pushed back, with
`pushback_seconds = 0` due members are destructively popped.  Returns the
dequeued payloads and the new sorted set. -/
def dequeue_jobs_raw_timed (z : List (PyStr × ℚ)) (pushback now : ℚ)
    (max_jobs : Nat) : List PyStr × List (PyStr × ℚ) :=
  let pushback_time := now + pushback
  if now < pushback_time then redis_zaddbyscore z now max_jobs pushback_time
  else redis_zpopbyscore z now max_jobs

/-- Store effect of the raw branch of `Queue.dequeue_jobs` (lines
337–410): the popped payloads and the updated queue structure.  (The
subsequent job-factory conversion and durable bulk insert do not touch the
queue structure.) -/
def dequeue_raw_effect (q : Queue) (st : QueueState) (pushback now : ℚ)
    (max_jobs : Nat) : List PyStr × QueueState :=
  if q.is_timed then
    let r := dequeue_jobs_raw_timed st.zset pushback now max_jobs
    (r.1, { st with zset := r.2 })
  else if q.is_sorted then
    ((st.zset.take max_jobs).map Prod.fst, { st with zset := st.zset.drop max_jobs })
  else if q.is_set then
    let r := redis_group_command st.sset max_jobs
    (r.1, { st with sset := r.2 })
  else
    let r := redis_group_command st.qlist max_jobs
    (r.1, { st with qlist := r.2 })

/-- Store/durable state during a non-raw dequeue: the backing list, the
global started sorted set, and the set of ids durably marked started in
MongoDB. -/
structure ListDequeueState where
  queue : List PyStr
  started : List (PyStr × ℚ)
  mongoStarted : List PyStr
  deriving Repr, DecidableEq

/-- Result of a non-raw dequeue: the serialized ids popped by the script,
the unserialized ids of the returned job handles, and the trace of states
after each store or durable operation of the call. -/
structure ListDequeueResult where
  popped : List PyStr
  jobs : List PyStr
  states : List ListDequeueState
  deriving Repr, DecidableEq

/-- The non-raw branch of `Queue.dequeue_jobs` (lines 412–444): one
`redis_lpopsafe` call (head, or tail when reverse-ordered), early return
when nothing was popped, then one `Job(..., start=True)` durable mark per
non-empty unserialized id, then one `ZREM` of the popped ids from the
started set.  The trace records the state before the call, after the
atomic pop, after each durable mark, and after the final cleanup. -/
def dequeue_jobs_list (q : Queue) (large : Bool) (st : ListDequeueState)
    (max_jobs : Nat) (now : ℚ) : ListDequeueResult :=
  let r := redis_lpopsafe st.queue st.started max_jobs now (!q.is_reverse)
  let popped := r.1
  let s1 : ListDequeueState :=
    { queue := r.2.1, started := r.2.2, mongoStarted := st.mongoStarted }
  if popped.isEmpty then { popped := [], jobs := [], states := [st, s1] }
  else
    let jobs := (unserialize_job_ids large popped).filter (fun i => !i.isEmpty)
    let markStates := (List.range jobs.length).map
      (fun k => { s1 with mongoStarted := st.mongoStarted ++ jobs.take (k + 1) })
    let s2 : ListDequeueState := { s1 with mongoStarted := st.mongoStarted ++ jobs }
    let s3 : ListDequeueState := { s2 with started := zrem s2.started popped }
    { popped := popped, jobs := jobs, states := [st, s1] ++ markStates ++ [s3] }

/-! ### The global store state and the operations of the core -/

/-- Global shared state: the distributed known-queues set
(`P:known_queues`), the process-wide `Queue.known_queues` cache, every
queue key, and the global started sorted set (`P:s:started`). -/
structure GlobalState where
  knownRedis : List PyStr
  knownCache : List PyStr
  queues : PyStr → QueueState
  started : List (PyStr × ℚ)

/-- `Queue.__init__` registration (lines 51–56): when the process sees the
(reverse-stripped) id for the first time, `SADD` it to the distributed set
and add it to the in-process cache. -/
def constructQueue (queue_id : PyStr) (g : GlobalState) : GlobalState :=
  let q := Queue.make queue_id
  if g.knownCache.contains q.id then g
  else
    { g with
      knownRedis := if g.knownRedis.contains q.id then g.knownRedis else g.knownRedis ++ [q.id],
      knownCache := q.id :: g.knownCache }

/-- A mutating operation of this core against the shared store. -/
inductive Op where
  | construct (queue_id : PyStr)
  | enqueueJobIds (q : Queue) (large : Bool) (arg : JobIdsArg) (now : ℚ)
  | enqueueRawJobs (q : Queue) (arg : JobIdsArg) (now : ℚ)
  | removeRawJobs (q : Queue) (params : List PyStr)
  | emptyOp (q : Queue)
  | dequeueRaw (q : Queue) (pushback now : ℚ) (max_jobs : Nat)
  | dequeueList (q : Queue) (large : Bool) (max_jobs : Nat) (now : ℚ)

/-- Store effect of one operation.  An operation that raises does so
before any store write, leaving the state unchanged; the non-raw dequeue
ends in the last state of its trace. -/
def applyOp (op : Op) (g : GlobalState) : GlobalState :=
  match op with
  | .construct qid => constructQueue qid g
  | .enqueueJobIds q large arg now =>
    match enqueue_job_ids q large (g.queues q.id) arg now with
    | .ok (st', _) => { g with queues := Function.update g.queues q.id st' }
    | .error _ => g
  | .enqueueRawJobs q arg now =>
    match enqueue_raw_jobs q (g.queues q.id) arg now with
    | .ok (st', _) => { g with queues := Function.update g.queues q.id st' }
    | .error _ => g
  | .removeRawJobs q params =>
    match remove_raw_jobs q (g.queues q.id) params with
    | .ok (st', _) => { g with queues := Function.update g.queues q.id st' }
    | .error _ => g
  | .emptyOp q => { g with queues := Function.update g.queues q.id (emptyQueue (g.queues q.id)) }
  | .dequeueRaw q pushback now max_jobs =>
    { g with queues := Function.update g.queues q.id (dequeue_raw_effect q (g.queues q.id) pushback now max_jobs).2 }
  | .dequeueList q large max_jobs now =>
    let st0 : ListDequeueState :=
      { queue := (g.queues q.id).qlist, started := g.started, mongoStarted := [] }
    let r := dequeue_jobs_list q large st0 max_jobs now
    let fin := r.states.getLast?.getD st0
    { g with
      queues := Function.update g.queues q.id { g.queues q.id with qlist := fin.queue },
      started := fin.started }

/-! ### Theorems -/

/-- C3: Queue construction strips a trailing `"_reverse"` suffix (setting
the reverse flag), then on the remaining id sets `is_raw` iff it contains
`"_raw"` or `"_set"`, `is_set` iff it contains `"_set"`, `is_timed` iff it
contains `"_timed"`, `is_sorted` iff it contains `"_timed"` or
`"_sorted"` (substring matches), so `set ⇒ raw` and `timed ⇒ sorted` hold
for every constructed Queue. -/
theorem C3_queue_typing (qid : PyStr) :
    (Queue.make qid).is_reverse = endsWith qid (pys "_reverse") ∧
    (Queue.make qid).id =
      (if endsWith qid (pys "_reverse") then qid.take (qid.length - 8) else qid) ∧
    (Queue.make qid).is_raw =
      (hasSub (Queue.make qid).id (pys "_raw") || hasSub (Queue.make qid).id (pys "_set")) ∧
    (Queue.make qid).is_set = hasSub (Queue.make qid).id (pys "_set") ∧
    (Queue.make qid).is_timed = hasSub (Queue.make qid).id (pys "_timed") ∧
    (Queue.make qid).is_sorted =
      (hasSub (Queue.make qid).id (pys "_timed") || hasSub (Queue.make qid).id (pys "_sorted")) ∧
    ((Queue.make qid).is_set = true → (Queue.make qid).is_raw = true) ∧
    ((Queue.make qid).is_timed = true → (Queue.make qid).is_sorted = true) := by
  unfold Queue.make
  dsimp only
  split_ifs <;>
    simp_all only [if_true, if_false, Bool.or_self, Bool.or_true, Bool.true_or,
      Bool.or_false, Bool.false_or, and_self, implies_true, and_true, true_and,
      eq_self_iff_true, forall_true_left]

/-- C3 witness: the theorem at the concrete id `"jobs_timed_raw_reverse"`,
whose timed flag forces the sorted flag. -/
theorem C3_queue_typing_witness :
    (Queue.make (pys "jobs_timed_raw_reverse")).is_sorted = true :=
  (C3_queue_typing (pys "jobs_timed_raw_reverse")).2.2.2.2.2.2.2 (by decide)

/-- C8: on a timed queue `count_jobs_to_dequeue` counts the members with
score at most the current time; on every non-timed queue it equals
`size()`, which is the sorted-set cardinality, the set cardinality, or the
list length according to the queue kind. -/
theorem C8_count_jobs_to_dequeue (q : Queue) (st : QueueState) (now : ℚ) :
    (q.is_timed = true →
      count_jobs_to_dequeue q st now =
        (st.zset.filter (fun p => decide (p.2 ≤ now))).length) ∧
    (q.is_timed = false → count_jobs_to_dequeue q st now = size q st) ∧
    (q.is_sorted = true → size q st = st.zset.length) ∧
    (q.is_sorted = false → q.is_set = true → size q st = st.sset.length) ∧
    (q.is_sorted = false → q.is_set = false → size q st = st.qlist.length) := by
  unfold count_jobs_to_dequeue size zcountLe
  refine ⟨fun ht => ?_, fun ht => ?_, fun hs => ?_, fun hs hset => ?_, fun hs hset => ?_⟩ <;>
    simp [*, List.countP_eq_length_filter]

/-- C8 witness: a timed queue holding scores `now − 10` and `now + 10` at
`now = 0` has exactly one dequeueable job. -/
theorem C8_count_jobs_to_dequeue_witness :
    count_jobs_to_dequeue (Queue.make (pys "jobs_timed"))
      { zset := [(pys "a", -10), (pys "b", 10)] } 0 = 1 := by
  have h := (C8_count_jobs_to_dequeue (Queue.make (pys "jobs_timed"))
    { zset := [(pys "a", -10), (pys "b", 10)] } 0).1 (by decide)
  rw [h]
  decide

/-- Rewriting scores of selected members leaves the member sequence of a
sorted set unchanged. -/
theorem map_fst_zrewrite (z : List (PyStr × ℚ)) (f : PyStr → Bool) (ns : ℚ) :
    (z.map (fun p => if f p.1 then (p.1, ns) else p)).map Prod.fst = z.map Prod.fst := by
  simp [List.map_map, Function.comp_def, apply_ite, ite_self]

/-- C2: on a raw timed queue with `pushback_seconds > 0`, `dequeue_jobs`
rewrites the scores of up to `max_jobs` members with score `≤ now` to
`now + pushback` instead of removing them: the member sequence of the
backing sorted set is unchanged and every dequeued payload is still a
member afterwards, with score `now + pushback`. -/
theorem C2_pushback_keeps_members (z : List (PyStr × ℚ)) (pushback now : ℚ)
    (max_jobs : Nat) (hpb : 0 < pushback) :
    ((dequeue_jobs_raw_timed z pushback now max_jobs).2.map Prod.fst = z.map Prod.fst) ∧
    (dequeue_jobs_raw_timed z pushback now max_jobs).1.length ≤ max_jobs ∧
    (∀ p ∈ (dequeue_jobs_raw_timed z pushback now max_jobs).1,
      (∃ s, (p, s) ∈ z ∧ s ≤ now) ∧
      (p, now + pushback) ∈ (dequeue_jobs_raw_timed z pushback now max_jobs).2) := by
  have hcond : now < now + pushback := by linarith
  unfold dequeue_jobs_raw_timed redis_zaddbyscore
  rw [if_pos hcond]
  dsimp only
  refine ⟨map_fst_zrewrite z _ _, ?_, ?_⟩
  · simp only [List.length_map, List.length_take]
    exact Nat.min_le_left _ _
  · intro p hp
    obtain ⟨e, he_take, rfl⟩ := List.mem_map.1 hp
    have he_filter := List.mem_of_mem_take he_take
    have he_z : e ∈ z := List.mem_of_mem_filter he_filter
    have he_le : e.2 ≤ now := by
      have := List.of_mem_filter he_filter
      simpa using this
    refine ⟨⟨e.2, by simpa using he_z, he_le⟩, ?_⟩
    refine List.mem_map.2 ⟨e, he_z, ?_⟩
    split
    · rfl
    · next hfalse => exact absurd (List.elem_iff.2 hp) hfalse

/-- C2 witness: payload `"X"` at score `0` on a queue with pushback `5`,
dequeued at time `0`, is still a member with score `5`. -/
theorem C2_pushback_keeps_members_witness :
    (pys "X", (0 : ℚ) + 5) ∈ (dequeue_jobs_raw_timed [(pys "X", 0)] 5 0 1).2 := by
  have h := (C2_pushback_keeps_members [(pys "X", 0)] 5 0 1 (by norm_num)).2.2
  refine (h (pys "X") ?_).2
  have : (dequeue_jobs_raw_timed [(pys "X", 0)] 5 0 1).1 = [pys "X"] := by
    norm_num [dequeue_jobs_raw_timed, redis_zaddbyscore]
  rw [this]
  exact List.mem_singleton.2 rfl

/-- C5 counterexample: on members scored `{-5, 150, 160}` with
`get_sorted_graph(0, 100, 4, include_inf=true)` the code returns
`[1, 0, 0, 0, 0, 2]`: only the count of members with score `< start` is
prepended, while the count of members with score `≥ stop` (here `2`) is
appended after the bucket counts, contradicting the claim that both extra
counts are prepended before the bucket counts. -/
theorem C5_counterexample :
    get_sorted_graph (Queue.make (pys "q_sorted"))
      [(pys "a", -5), (pys "b", 150), (pys "c", 160)] 0 100 4 true =
      .ok [1, 0, 0, 0, 0, 2] ∧
    get_sorted_graph (Queue.make (pys "q_sorted"))
      [(pys "a", -5), (pys "b", 150), (pys "c", 160)] 0 100 4 true ≠
      .ok ([2, 1] ++ [0, 0, 0, 0]) ∧
    get_sorted_graph (Queue.make (pys "q_sorted"))
      [(pys "a", -5), (pys "b", 150), (pys "c", 160)] 0 100 4 true ≠
      .ok ([1, 2] ++ [0, 0, 0, 0]) := by
  have hq : (Queue.make (pys "q_sorted")).is_sorted = true := by decide
  have h : get_sorted_graph (Queue.make (pys "q_sorted"))
      [(pys "a", -5), (pys "b", 150), (pys "c", 160)] 0 100 4 true =
      .ok [1, 0, 0, 0, 0, 2] := by
    norm_num [get_sorted_graph, hq, zcountCo, zcountGe, zcountLt,
      List.countP_cons, List.countP_nil, List.range_succ]
  refine ⟨h, ?_, ?_⟩ <;> rw [h] <;> simp

/-- C5 (amended): on a sorted queue, `get_sorted_graph(start, stop,
slices, include_inf)` returns the member counts of the `slices`
equal-width half-open buckets `[start + i·w, start + (i+1)·w)` for
`w = (stop − start)/slices`; when `include_inf` is true the count of
members with score `< start` is prepended before the bucket counts and
the count of members with score `≥ stop` is appended after them. -/
theorem C5_sorted_graph_buckets (q : Queue) (z : List (PyStr × ℚ))
    (start stop : ℚ) (slices : Nat) (hq : q.is_sorted = true)
    (_hlt : start < stop) (_hs : 1 ≤ slices) :
    get_sorted_graph q z start stop slices false =
      .ok ((List.range slices).map (fun i =>
        (z.filter (fun p =>
          decide (start + i * ((stop - start) / slices) ≤ p.2) &&
          decide (p.2 < start + (i + 1) * ((stop - start) / slices)))).length)) ∧
    get_sorted_graph q z start stop slices true =
      .ok ([(z.filter (fun p => decide (p.2 < start))).length] ++
        (List.range slices).map (fun i =>
          (z.filter (fun p =>
            decide (start + i * ((stop - start) / slices) ≤ p.2) &&
            decide (p.2 < start + (i + 1) * ((stop - start) / slices)))).length) ++
        [(z.filter (fun p => decide (stop ≤ p.2))).length]) := by
  unfold get_sorted_graph
  simp only [hq, Bool.not_true, Bool.false_eq_true, if_false, if_true, dite_eq_ite]
  constructor
  · simp [zcountCo, List.countP_eq_length_filter]
  · set B := (List.range slices).map (fun i =>
      zcountCo z (start + i * ((stop - start) / slices))
        (start + (i + 1) * ((stop - start) / slices))) with hB
    have hlen : (B ++ [zcountGe z stop, zcountLt z start]).length - 1 = B.length + 1 := by
      simp
    rw [hlen, List.drop_append 1, List.take_append 1]
    simp [hB, zcountCo, zcountGe, zcountLt, List.countP_eq_length_filter]

/-- C5 witness: the amended theorem at the spec's example — members scored
`{10, 30, 60, 90}` with `get_sorted_graph(0, 100, 4)` give bucket counts
`[1, 1, 1, 1]`. -/
theorem C5_sorted_graph_buckets_witness :
    get_sorted_graph (Queue.make (pys "q_sorted"))
      [(pys "a", 10), (pys "b", 30), (pys "c", 60), (pys "d", 90)] 0 100 4 false =
      .ok [1, 1, 1, 1] := by
  have h := (C5_sorted_graph_buckets (Queue.make (pys "q_sorted"))
    [(pys "a", 10), (pys "b", 30), (pys "c", 60), (pys "d", 90)] 0 100 4
    (by decide) (by norm_num) (by norm_num)).1
  rw [h]
  norm_num [List.range_succ]

/-- C6 counterexample: on a raw queue, `enqueue_job_ids` with EMPTY input
does not fail — the empty-input early return comes before the raw-queue
check, so the call returns silently instead of raising the type-contract
error the claim promises for every input. -/
theorem C6_counterexample :
    (Queue.make (pys "q_raw")).is_raw = true ∧
    enqueue_job_ids (Queue.make (pys "q_raw")) false {} (.ids []) 0 =
      .ok ({}, []) :=
  ⟨by decide, rfl⟩

/-- C6 (amended): `enqueue_job_ids` on a raw queue fails with a
type-contract error for every NON-EMPTY input; on empty input it is a
no-op for every queue kind, mutating nothing and emitting no metric. -/
theorem C6_enqueue_contract (q : Queue) (large : Bool) (st : QueueState)
    (arg : JobIdsArg) (now : ℚ) :
    (q.is_raw = true → arg.len ≠ 0 →
      enqueue_job_ids q large st arg now =
        .error "cannot queue regular jobs on a raw queue") ∧
    (arg.len = 0 → enqueue_job_ids q large st arg now = .ok (st, [])) := by
  unfold enqueue_job_ids
  constructor
  · intro hraw hlen
    have h0 : (arg.len == 0) = false := by simpa using hlen
    simp [h0, hraw]
  · intro hlen
    simp [hlen]

/-- C6 witness: the amended theorem at a raw queue with one id (fails) and
at a plain queue with empty input (no-op with no metric). -/
theorem C6_enqueue_contract_witness :
    enqueue_job_ids (Queue.make (pys "q_raw")) false {} (.ids [pys "ab"]) 0 =
      .error "cannot queue regular jobs on a raw queue" ∧
    enqueue_job_ids (Queue.make (pys "q1")) false {} (.ids []) 0 = .ok ({}, []) :=
  ⟨(C6_enqueue_contract (Queue.make (pys "q_raw")) false {} (.ids [pys "ab"]) 0).1
      (by decide) (by decide),
   (C6_enqueue_contract (Queue.make (pys "q1")) false {} (.ids []) 0).2 rfl⟩

/-- With a positive `limit`, the inclusive redis range
`[skip, skip + limit - 1]` reads `skip`-offset pages of size `limit`. -/
theorem redisRange_skip_limit {α : Type} (l : List α) (skip limit : Nat)
    (h : 1 ≤ limit) :
    redisRange l skip ((skip : Int) + limit - 1) = (l.drop skip).take limit := by
  unfold redisRange
  dsimp only
  have hdroplen : (l.drop skip).length = l.length - skip := List.length_drop skip l
  split_ifs with h1 h2 h3 h4 h5 h6 <;> first
    | omega
    | (exfalso; omega)
    | skip
  all_goals try
    (have hnil : l.drop skip = [] := List.drop_eq_nil_of_le (by omega)
     rw [hnil]
     simp)
  all_goals
    (have hmax : ((skip : Int) ⊔ 0) = (skip : Int) := by omega
     rw [hmax]
     have htn : ((skip : Int)).toNat = skip := rfl
     rw [htn]
     rcases Nat.le_total (skip + limit) l.length with hcase | hcase
     · have hc : (((skip : Int) + limit - 1) ⊓ ((l.length : Int) - 1) - skip + 1).toNat
           = limit := by omega
       rw [hc]
     · have hc : (((skip : Int) + limit - 1) ⊓ ((l.length : Int) - 1) - skip + 1).toNat
           = l.length - skip := by omega
       rw [hc, List.take_of_length_le (by omega), List.take_of_length_le (by omega)])

/-- C10: on a set-backed raw queue `list_raw_jobs(skip, limit)` ignores
`skip` entirely and returns up to `limit` members of the set, so
successive pages need not be disjoint; the sorted and list kinds, in
contrast, return the `limit`-sized page at offset `skip`. -/
theorem C10_set_listing_ignores_skip (q : Queue) (st : QueueState)
    (skip1 skip2 limit : Nat) (hraw : q.is_raw = true) (hset : q.is_set = true)
    (hsorted : q.is_sorted = false) :
    (list_raw_jobs q st skip1 limit = list_raw_jobs q st skip2 limit) ∧
    (list_raw_jobs q st skip1 limit = .ok (st.sset.take limit)) ∧
    (st.sset.take limit).length ≤ limit ∧
    (∀ m ∈ st.sset.take limit, m ∈ st.sset) ∧
    (∀ q' : Queue, q'.is_raw = true → q'.is_sorted = true → 1 ≤ limit →
      list_raw_jobs q' st skip1 limit =
        .ok (((st.zset.map Prod.fst).drop skip1).take limit)) ∧
    (∀ q' : Queue, q'.is_raw = true → q'.is_sorted = false → q'.is_set = false →
      1 ≤ limit →
      list_raw_jobs q' st skip1 limit = .ok ((st.qlist.drop skip1).take limit)) := by
  unfold list_raw_jobs get_queue_content
  refine ⟨by simp [hraw, hset, hsorted], by simp [hraw, hset, hsorted], ?_, ?_, ?_, ?_⟩
  · simp only [List.length_take]
    exact Nat.min_le_left _ _
  · intro m hm
    exact List.mem_of_mem_take hm
  · intro q' hraw' hsorted' hlim
    simp [hraw', hsorted', redisRange_skip_limit _ _ _ hlim]
  · intro q' hraw' hsorted' hset' hlim
    simp [hraw', hsorted', hset', redisRange_skip_limit _ _ _ hlim]

/-- C10 witness: a three-member set queue read with `skip = 5` and
`skip = 0` yields the same page. -/
theorem C10_set_listing_ignores_skip_witness :
    list_raw_jobs (Queue.make (pys "q_set")) { sset := [pys "a", pys "b", pys "c"] } 5 2 =
    list_raw_jobs (Queue.make (pys "q_set")) { sset := [pys "a", pys "b", pys "c"] } 0 2 :=
  (C10_set_listing_ignores_skip (Queue.make (pys "q_set"))
    { sset := [pys "a", pys "b", pys "c"] } 5 0 2
    (by decide) (by decide) (by decide)).1

/-- A lowercase hex digit byte has a hex value below 16 whose lowercase
rendering is the byte itself. -/
theorem hexVal_lower (c : Nat) (h : isLowerHex c = true) :
    ∃ v, hexVal? c = some v ∧ v < 16 ∧ digitChar v = c := by
  simp only [isLowerHex, Bool.or_eq_true, decide_eq_true_eq] at h
  unfold hexVal? digitChar
  rcases h with ⟨h1, h2⟩ | ⟨h1, h2⟩
  · refine ⟨c - 48, ?_, by omega, ?_⟩
    · rw [if_pos ⟨h1, h2⟩]
    · rw [if_pos (by omega)]
      omega
  · refine ⟨c - 87, ?_, by omega, ?_⟩
    · rw [if_neg (by omega), if_pos ⟨h1, h2⟩]
    · rw [if_neg (by omega)]
      omega

/-- Decoding a canonical (even-length lowercase hex) byte string succeeds,
and re-encoding the decoded bytes gives back the original string. -/
theorem hexRoundTrip : ∀ s : PyStr, isCanonicalId s = true →
    ∃ b, hexDecode s = some b ∧ hexEncode b = s
  | [], _ => ⟨[], rfl, rfl⟩
  | [c], h => by simp [isCanonicalId] at h
  | c1 :: c2 :: rest, h => by
    have hparts : isLowerHex c1 = true ∧ isLowerHex c2 = true ∧
        isCanonicalId rest = true := by
      simp only [isCanonicalId, List.all_cons, List.length_cons,
        Bool.and_eq_true, beq_iff_eq] at h ⊢
      refine ⟨h.1.1, h.1.2.1, h.1.2.2, ?_⟩
      omega
    obtain ⟨b, hdec, henc⟩ := hexRoundTrip rest hparts.2.2
    obtain ⟨v1, hv1, hv1lt, hd1⟩ := hexVal_lower c1 hparts.1
    obtain ⟨v2, hv2, hv2lt, hd2⟩ := hexVal_lower c2 hparts.2.1
    refine ⟨(16 * v1 + v2) :: b, ?_, ?_⟩
    · simp [hexDecode, hv1, hv2, hdec]
    · have e1 : (16 * v1 + v2) / 16 % 16 = v1 := by omega
      have e2 : (16 * v1 + v2) % 16 = v2 := by omega
      simp only [hexEncode, List.flatMap_cons] at henc ⊢
      rw [e1, e2, hd1, hd2, henc]
      rfl

/-- Batch version of `hexRoundTrip` for `List.mapM`. -/
theorem mapM_hexDecode_canonical : ∀ ids : List PyStr,
    (∀ id ∈ ids, isCanonicalId id = true) →
    ∃ bs, ids.mapM hexDecode = some bs ∧ bs.map hexEncode = ids := by
  intro ids h
  induction ids with
  | nil => exact ⟨[], rfl, rfl⟩
  | cons a l ih =>
    obtain ⟨b, hd, he⟩ := hexRoundTrip a (h a (by simp))
    obtain ⟨bs, hds, hes⟩ := ih (fun id hid => h id (by simp [hid]))
    refine ⟨b :: bs, ?_, by simp [he, hes]⟩
    rw [List.mapM_cons, hd, hds]
    rfl

/-- C4 (amended): `serialize_job_ids` followed by `unserialize_job_ids`
reproduces the original sequence for every sequence of canonical
(even-length lowercase hex) string ids under an unchanged large-id flag,
and both functions are the identity when the flag is set or the input is
empty.  (Ids that are not canonical hex text — uppercase digits, odd
length, or bson ObjectId objects — do not round-trip to themselves.) -/
theorem C4_serialization_round_trip (large : Bool) (ids : List PyStr)
    (h : ∀ id ∈ ids, isCanonicalId id = true) :
    (serialize_job_ids large ids).map (unserialize_job_ids large) = some ids ∧
    serialize_job_ids true ids = some ids ∧
    unserialize_job_ids true ids = ids ∧
    serialize_job_ids large [] = some [] ∧
    unserialize_job_ids large [] = [] := by
  refine ⟨?_, by simp [serialize_job_ids], by simp [unserialize_job_ids],
    by simp [serialize_job_ids], by simp [unserialize_job_ids]⟩
  unfold serialize_job_ids unserialize_job_ids
  by_cases h0 : (ids.length == 0 || large) = true
  · rw [if_pos h0, Option.map_some', if_pos h0]
  · obtain ⟨bs, hds, hes⟩ := mapM_hexDecode_canonical ids h
    have hlen : bs.length = ids.length := by
      rw [← hes]
      simp
    have hbs0 : (bs.length == 0 || large) = false := by
      simp only [Bool.or_eq_true, beq_iff_eq] at h0 ⊢
      push_neg at h0
      simp [hlen, h0.1, h0.2]
    rw [if_neg (by simp [h0]), hds, Option.map_some']
    rw [if_neg (by simp [hbs0]), hes]

/-- C4 counterexample: the id `"AB"` (uppercase hex) serializes to the
byte `0xAB` but unserializes to `"ab"`, not the original sequence. -/
theorem C4_counterexample :
    (serialize_job_ids false [pys "AB"]).map (unserialize_job_ids false) =
      some [pys "ab"] ∧ pys "ab" ≠ pys "AB" :=
  ⟨rfl, by decide⟩

/-- C4 witness: the round trip at the canonical id `"0a1b"`. -/
theorem C4_serialization_round_trip_witness :
    (serialize_job_ids false [pys "0a1b"]).map (unserialize_job_ids false) =
      some [pys "0a1b"] :=
  (C4_serialization_round_trip false [pys "0a1b"] (by decide)).1

/-- Serialization of canonical ids (or any ids under large-id config)
succeeds, preserves length, and unserialization undoes it on any
head- or tail- prefix of the stored list. -/
theorem serialize_take_spec (large : Bool) (ids ser : List PyStr)
    (hser : serialize_job_ids large ids = some ser)
    (hcan : ∀ id ∈ ids, large = false → isCanonicalId id = true) :
    ser.length = ids.length ∧
    (∀ N, unserialize_job_ids large (ser.take N) = ids.take N) ∧
    (∀ N, unserialize_job_ids large (ser.reverse.take N) = ids.reverse.take N) := by
  unfold serialize_job_ids at hser
  by_cases h0 : (ids.length == 0 || large) = true
  · rw [if_pos h0] at hser
    obtain rfl : ids = ser := by injection hser
    rcases (by simpa using h0 : ids.length = 0 ∨ large = true) with h | h
    · obtain rfl : ids = [] := List.length_eq_zero.1 h
      refine ⟨rfl, fun N => ?_, fun N => ?_⟩ <;> simp [unserialize_job_ids]
    · refine ⟨rfl, fun N => ?_, fun N => ?_⟩ <;> simp [unserialize_job_ids, h]
  · rw [if_neg h0] at hser
    have hl : ids.length ≠ 0 ∧ large = false := by
      simp only [Bool.or_eq_true, beq_iff_eq] at h0
      push_neg at h0
      exact ⟨h0.1, by simpa using h0.2⟩
    obtain ⟨hne, hlf⟩ := hl
    subst hlf
    obtain ⟨bs, hds, hes⟩ := mapM_hexDecode_canonical ids (fun id hid => hcan id hid rfl)
    have hsb : ser = bs := by
      rw [hser] at hds
      exact Option.some.inj hds
    subst hsb
    have hlen : ser.length = ids.length := by rw [← hes]; simp
    refine ⟨hlen, fun N => ?_, fun N => ?_⟩ <;> unfold unserialize_job_ids
    · by_cases ht : (ser.take N).length = 0
      · rw [if_pos (by simp [ht])]
        have hmin : min N ser.length = 0 := by
          have h2 := List.length_take N ser
          omega
        have hN : N = 0 := by omega
        subst hN
        simp
      · rw [if_neg (by simpa using ht), List.map_take, hes]
    · by_cases ht : (ser.reverse.take N).length = 0
      · rw [if_pos (by simp [ht])]
        have hmin : min N ser.reverse.length = 0 := by
          have h2 := List.length_take N ser.reverse
          omega
        have hrl : ser.reverse.length = ser.length := List.length_reverse ser
        have hN : N = 0 := by omega
        subst hN
        simp
      · rw [if_neg (by simpa using ht), List.map_take, List.map_reverse, hes]

/-- C7: on a plain queue (not raw, not sorted, not set), enqueuing ids and
then dequeuing `N ≤ count` of them yields the first `N` ids in enqueue
(FIFO) order; with the reverse flag set (a `"_reverse"` queue reading the
same backing list) it yields the last `N` ids in reverse-enqueue (LIFO)
order. -/
theorem C7_fifo_lifo (q : Queue) (large : Bool) (ids ser : List PyStr) (N : Nat)
    (tenq now : ℚ) (started0 : List (PyStr × ℚ)) (mongo0 : List PyStr)
    (hser : serialize_job_ids large ids = some ser)
    (hraw : q.is_raw = false) (hsorted : q.is_sorted = false)
    (hids : ∀ id ∈ ids, id ≠ [] ∧ (large = false → isCanonicalId id = true))
    (hN : N ≤ ids.length) :
    enqueue_job_ids q large {} (.ids ids) tenq =
      .ok ({ qlist := ser },
        if ids.length = 0 then [] else
          [(pys "queues." ++ q.id ++ pys ".enqueued", ids.length),
           (pys "queues.all.enqueued", ids.length)]) ∧
    (dequeue_jobs_list q large ⟨ser, started0, mongo0⟩ N now).jobs =
      (if q.is_reverse then ids.reverse.take N else ids.take N) := by
  obtain ⟨hlen, htake, htakerev⟩ :=
    serialize_take_spec large ids ser hser (fun id hid => (hids id hid).2)
  by_cases hnil : ids = []
  · subst hnil
    obtain rfl : ser = [] := List.length_eq_zero.1 hlen
    constructor
    · rfl
    · unfold dequeue_jobs_list redis_lpopsafe
      simp
  · have hser_ne : ser ≠ [] := by
      intro h
      apply hnil
      apply List.length_eq_zero.1
      rw [← hlen, h]
      rfl
    constructor
    · unfold enqueue_job_ids
      rw [if_neg (by simp [JobIdsArg.len, List.length_eq_zero, hnil]),
        if_neg (by simp [hraw]), if_neg (by simp [hsorted])]
      dsimp only
      rw [hser, if_neg (fun hh => hnil (List.length_eq_zero.1 hh))]
      simp [JobIdsArg.len]
    · have hser_len : ser.length ≠ 0 := by
        intro hh
        exact hser_ne (List.length_eq_zero.1 hh)
      unfold dequeue_jobs_list redis_lpopsafe
      dsimp only
      cases hrev : q.is_reverse
      · simp only [hrev, Bool.not_false, reduceIte]
        cases hpop : (List.take N ser).isEmpty
        · simp only [hpop, Bool.false_eq_true, reduceIte]
          rw [htake N]
          apply List.filter_eq_self.2
          intro x hx
          have hxids : x ∈ ids := List.mem_of_mem_take hx
          simpa using (hids x hxids).1
        · simp only [hpop, reduceIte]
          have h1 : ser.take N = [] := by simpa using hpop
          have h2 := List.length_take N ser
          rw [h1] at h2
          simp only [List.length_nil] at h2
          have hN0 : N = 0 := by omega
          subst hN0
          simp
      · simp only [hrev, Bool.not_true, reduceIte]
        cases hpop : (List.take N ser.reverse).isEmpty
        · simp only [hpop, Bool.false_eq_true, reduceIte]
          rw [htakerev N]
          apply List.filter_eq_self.2
          intro x hx
          have hxids : x ∈ ids := List.mem_reverse.1 (List.mem_of_mem_take hx)
          simpa using (hids x hxids).1
        · try simp only [hpop, reduceIte]
          have h1 : ser.reverse.take N = [] := by simpa using hpop
          have h2 := List.length_take N ser.reverse
          rw [h1] at h2
          simp only [List.length_nil, List.length_reverse] at h2
          have hN0 : N = 0 := by omega
          subst hN0
          simp

/-- C7 witness: three ids enqueued on the plain queue `"q1"` and dequeued
through its `"q1_reverse"` view with `N = 2` come back last-first. -/
theorem C7_fifo_lifo_witness :
    enqueue_job_ids (Queue.make (pys "q1_reverse")) false {}
      (.ids [pys "aa", pys "bb", pys "cc"]) 0 =
      .ok ({ qlist := [[170], [187], [204]] },
        if ([pys "aa", pys "bb", pys "cc"] : List PyStr).length = 0 then [] else
          [(pys "queues." ++ (Queue.make (pys "q1_reverse")).id ++ pys ".enqueued",
              ([pys "aa", pys "bb", pys "cc"] : List PyStr).length),
           (pys "queues.all.enqueued",
              ([pys "aa", pys "bb", pys "cc"] : List PyStr).length)]) ∧
    (dequeue_jobs_list (Queue.make (pys "q1_reverse")) false
        ⟨[[170], [187], [204]], [], []⟩ 2 0).jobs =
      (if (Queue.make (pys "q1_reverse")).is_reverse then
        ([pys "aa", pys "bb", pys "cc"] : List PyStr).reverse.take 2
      else ([pys "aa", pys "bb", pys "cc"] : List PyStr).take 2) :=
  C7_fifo_lifo (Queue.make (pys "q1_reverse")) false
    [pys "aa", pys "bb", pys "cc"] [[170], [187], [204]] 2 0 0 [] []
    (by decide) (by decide) (by decide) (by decide) (by decide)

/-- The inserted entry is a member of the insertion result. -/
theorem zinsert_mem_self (z : List (PyStr × ℚ)) (m : PyStr) (s : ℚ) :
    (m, s) ∈ zinsert z m s := by
  induction z with
  | nil => simp [zinsert]
  | cons p rest ih =>
    unfold zinsert
    split
    · exact List.mem_cons_of_mem _ ih
    · simp

/-- Insertion preserves existing entries. -/
theorem zinsert_mem_of_mem (z : List (PyStr × ℚ)) (p : PyStr × ℚ) (m : PyStr)
    (s : ℚ) (hp : p ∈ z) : p ∈ zinsert z m s := by
  induction z with
  | nil => cases hp
  | cons a rest ih =>
    unfold zinsert
    split
    · rcases List.mem_cons.1 hp with rfl | hp'
      · exact List.mem_cons_self _ _
      · exact List.mem_cons_of_mem _ (ih hp')
    · exact List.mem_cons_of_mem _ hp

/-- `ZADD` puts the added (member, score) entry in the set. -/
theorem zadd_mem_self (z : List (PyStr × ℚ)) (m : PyStr) (s : ℚ) :
    (m, s) ∈ zadd z m s :=
  zinsert_mem_self _ _ _

/-- An entry carrying the same score as a later `ZADD` survives it. -/
theorem zadd_mem_same_score (z : List (PyStr × ℚ)) (m m' : PyStr) (s : ℚ)
    (h : (m, s) ∈ z) : (m, s) ∈ zadd z m' s := by
  unfold zadd
  by_cases hmm : m = m'
  · subst hmm
    exact zinsert_mem_self _ _ _
  · exact zinsert_mem_of_mem _ _ _ _ (List.mem_filter.2 ⟨h, by simpa using hmm⟩)

/-- After `ZADD`-ing every member of `l` at score `s`, each of them (and
every existing entry at score `s`) is present at score `s`. -/
theorem mem_foldl_zadd (l : List PyStr) (z : List (PyStr × ℚ)) (m : PyStr)
    (s : ℚ) (h : (m, s) ∈ z ∨ m ∈ l) :
    (m, s) ∈ List.foldl (fun acc x => zadd acc x s) z l := by
  induction l generalizing z with
  | nil =>
    rcases h with h | h
    · simpa using h
    · cases h
  | cons a t ih =>
    apply ih
    rcases h with h | h
    · exact Or.inl (zadd_mem_same_score z m a s h)
    · rcases List.mem_cons.1 h with rfl | h'
      · exact Or.inl (zadd_mem_self z m s)
      · exact Or.inr h'

/-- Hex encoding of a nonempty byte string is nonempty. -/
theorem hexEncode_ne_nil (s : PyStr) (h : s ≠ []) : hexEncode s ≠ [] := by
  cases s with
  | nil => exact absurd rfl h
  | cons a r => simp [hexEncode]

/-- C1 counterexample: after the final cleanup step of a successful
non-raw dequeue, the popped id has been removed from the started-set and
is no longer on the queue, so a trace state exists in which the popped id
is absent from both — the claimed invariant does not hold literally at
every point of the dequeue (the id is durably marked started by then). -/
theorem C1_counterexample :
    (dequeue_jobs_list (Queue.make (pys "q1")) true ⟨[pys "ab"], [], []⟩ 1 0).popped =
      [pys "ab"] ∧
    (dequeue_jobs_list (Queue.make (pys "q1")) true ⟨[pys "ab"], [], []⟩ 1 0).states =
      [⟨[pys "ab"], [], []⟩,
       ⟨[], [(pys "ab", 0)], []⟩,
       ⟨[], [(pys "ab", 0)], [pys "ab"]⟩,
       ⟨[], [], [pys "ab"]⟩] := by
  constructor <;> rfl

/-- C1 (amended): the non-raw dequeue pops up to `max_jobs` ids from the
head (tail when reverse-ordered) and records them in the started-set with
the reservation timestamp in one indivisible operation (the second trace
state), and at every point of the dequeue each popped id is on the queue,
or in the started-set with the reservation timestamp, or already durably
marked started (the cleanup removes started-set entries only after every
popped job was durably marked). -/
theorem C1_dequeue_list_protocol (q : Queue) (large : Bool)
    (st : ListDequeueState) (max_jobs : Nat) (now : ℚ)
    (_hraw : q.is_raw = false)
    (hne : ∀ id ∈ st.queue, id ≠ []) :
    ((dequeue_jobs_list q large st max_jobs now).popped =
      (if q.is_reverse then st.queue.reverse else st.queue).take max_jobs) ∧
    ((dequeue_jobs_list q large st max_jobs now).states.take 2 = [st,
      { queue := if q.is_reverse then (st.queue.reverse.drop max_jobs).reverse
                 else st.queue.drop max_jobs,
        started := List.foldl (fun z m => zadd z m now) st.started
          ((if q.is_reverse then st.queue.reverse else st.queue).take max_jobs),
        mongoStarted := st.mongoStarted }]) ∧
    (∀ s ∈ (dequeue_jobs_list q large st max_jobs now).states,
      ∀ sid ∈ (dequeue_jobs_list q large st max_jobs now).popped,
        sid ∈ s.queue ∨ (sid, now) ∈ s.started ∨
          (if large then sid else hexEncode sid) ∈ s.mongoStarted) := by
  have hpop_sub : ∀ sid ∈ (if q.is_reverse then st.queue.reverse else st.queue).take max_jobs,
      sid ∈ st.queue := by
    intro sid hsid
    have := List.mem_of_mem_take hsid
    split at this
    · exact List.mem_reverse.1 this
    · exact this
  have hmongo : ∀ sid, sid ∈ (if q.is_reverse then st.queue.reverse else st.queue).take max_jobs →
      ((if q.is_reverse then st.queue.reverse else st.queue).take max_jobs).isEmpty = false →
      (if large then sid else hexEncode sid) ∈
        (unserialize_job_ids large
          ((if q.is_reverse then st.queue.reverse else st.queue).take max_jobs)).filter
          (fun i => !i.isEmpty) := by
    intro sid hsid hpop
    set popped := (if q.is_reverse then st.queue.reverse else st.queue).take max_jobs with hp
    have hsid_ne : sid ≠ [] := hne sid (hpop_sub sid hsid)
    have hlen_ne : (popped.length == 0) = false := by
      have : popped ≠ [] := by
        intro hh
        rw [hh] at hpop
        simp at hpop
      simpa [List.length_eq_zero] using this
    apply List.mem_filter.2
    constructor
    · unfold unserialize_job_ids
      cases large
      · rw [if_neg (by simp [hlen_ne])]
        exact List.mem_map_of_mem hexEncode hsid
      · rw [if_pos (by simp)]
        exact hsid
    · cases large
      · simpa using hexEncode_ne_nil sid hsid_ne
      · simpa using hsid_ne
  unfold dequeue_jobs_list redis_lpopsafe
  dsimp only
  have hstep : ∀ (popped rest : List PyStr) (jobs : List PyStr),
      (∀ sid ∈ popped, sid ∈ st.queue) →
      (∀ sid ∈ popped, (if large then sid else hexEncode sid) ∈ jobs) →
      ∀ s ∈ ([st, ⟨rest, List.foldl (fun z m => zadd z m now) st.started popped,
          st.mongoStarted⟩] ++
          (List.range jobs.length).map (fun k =>
            (⟨rest, List.foldl (fun z m => zadd z m now) st.started popped,
              st.mongoStarted ++ jobs.take (k + 1)⟩ : ListDequeueState)) ++
          [⟨rest, zrem (List.foldl (fun z m => zadd z m now) st.started popped) popped,
            st.mongoStarted ++ jobs⟩]),
        ∀ sid ∈ popped, sid ∈ s.queue ∨ (sid, now) ∈ s.started ∨
          (if large then sid else hexEncode sid) ∈ s.mongoStarted := by
    intro popped rest jobs hsub hjobs s hs sid hsid
    simp only [List.mem_append, List.mem_cons, List.mem_map,
      List.not_mem_nil, or_false] at hs
    rcases hs with ((rfl | rfl) | ⟨k, _, rfl⟩) | rfl
    · exact Or.inl (hsub sid hsid)
    · exact Or.inr (Or.inl (mem_foldl_zadd _ _ _ _ (Or.inr hsid)))
    · exact Or.inr (Or.inl (mem_foldl_zadd _ _ _ _ (Or.inr hsid)))
    · exact Or.inr (Or.inr (List.mem_append_right _ (hjobs sid hsid)))
  cases hrev : q.is_reverse
  · simp only [hrev, Bool.not_false, reduceIte]
    simp only [hrev, reduceIte] at hpop_sub hmongo
    cases hpop : (List.take max_jobs st.queue).isEmpty
    · simp only [hpop, Bool.false_eq_true, reduceIte]
      exact ⟨trivial, rfl, hstep _ _ _ hpop_sub (fun sid hsid => hmongo sid hsid hpop)⟩
    · simp only [hpop, reduceIte]
      refine ⟨?_, rfl, ?_⟩
      · have h1 : List.take max_jobs st.queue = [] := by simpa using hpop
        first
        | trivial
        | simp [h1]
      · intro s hs sid hsid
        simp at hsid
  · simp only [hrev, Bool.not_true, Bool.false_eq_true, reduceIte, if_false]
    simp only [hrev, reduceIte] at hpop_sub hmongo
    cases hpop : (List.take max_jobs st.queue.reverse).isEmpty
    · simp only [hpop, Bool.false_eq_true, reduceIte]
      exact ⟨trivial, rfl, hstep _ _ _ hpop_sub (fun sid hsid => hmongo sid hsid hpop)⟩
    · try simp only [hpop, reduceIte]
      refine ⟨?_, rfl, ?_⟩
      · have h1 : List.take max_jobs st.queue.reverse = [] := by simpa using hpop
        first
        | trivial
        | simp [h1]
      · intro s hs sid hsid
        simp at hsid

/-- C1 witness: the protocol theorem at a one-element queue, `max_jobs = 1`,
large ids, time `0`. -/
theorem C1_dequeue_list_protocol_witness :
    (dequeue_jobs_list (Queue.make (pys "q1")) true ⟨[pys "ab"], [], []⟩ 1 0).popped =
      (if (Queue.make (pys "q1")).is_reverse then ([pys "ab"] : List PyStr).reverse
       else ([pys "ab"] : List PyStr)).take 1 :=
  (C1_dequeue_list_protocol (Queue.make (pys "q1")) true ⟨[pys "ab"], [], []⟩ 1 0
    (by decide) (by decide)).1

/-- C9: every Queue construction leaves the (reverse-stripped) id in both
the process-wide cache and the distributed known-queues set (given the
invariant that the cache only holds distributed-registered ids), no
operation of this core ever removes an id from the distributed set — it
grows monotonically under every operation — and the cache invariant is
preserved by every operation. -/
theorem C9_known_queues_registry :
    (∀ (g : GlobalState) (qid : PyStr), g.knownCache ⊆ g.knownRedis →
      (Queue.make qid).id ∈ (applyOp (.construct qid) g).knownCache ∧
      (Queue.make qid).id ∈ (applyOp (.construct qid) g).knownRedis) ∧
    (∀ (op : Op) (g : GlobalState), g.knownRedis ⊆ (applyOp op g).knownRedis) ∧
    (∀ (op : Op) (g : GlobalState), g.knownCache ⊆ g.knownRedis →
      (applyOp op g).knownCache ⊆ (applyOp op g).knownRedis) := by
  refine ⟨?_, ?_, ?_⟩
  · intro g qid hsub
    unfold applyOp constructQueue
    dsimp only
    by_cases hc : (g.knownCache.contains (Queue.make qid).id) = true
    · rw [if_pos hc]
      exact ⟨List.elem_iff.1 hc, hsub (List.elem_iff.1 hc)⟩
    · rw [if_neg hc]
      dsimp only
      refine ⟨List.mem_cons_self _ _, ?_⟩
      split
      · next hr => exact List.elem_iff.1 hr
      · exact List.mem_append_right _ (List.mem_singleton.2 rfl)
  · intro op g
    cases op with
    | construct qid =>
      unfold applyOp constructQueue
      dsimp only
      split
      · exact List.Subset.refl _
      · dsimp only
        split
        · exact List.Subset.refl _
        · exact List.subset_append_left _ _
    | enqueueJobIds q large arg now =>
      unfold applyOp
      dsimp only
      split <;> exact List.Subset.refl _
    | enqueueRawJobs q arg now =>
      unfold applyOp
      dsimp only
      split <;> exact List.Subset.refl _
    | removeRawJobs q params =>
      unfold applyOp
      dsimp only
      split <;> exact List.Subset.refl _
    | emptyOp q =>
      unfold applyOp
      exact List.Subset.refl _
    | dequeueRaw q pushback now max_jobs =>
      unfold applyOp
      exact List.Subset.refl _
    | dequeueList q large max_jobs now =>
      unfold applyOp
      exact List.Subset.refl _
  · intro op g hsub
    cases op with
    | construct qid =>
      unfold applyOp constructQueue
      dsimp only
      split
      · exact hsub
      · dsimp only
        intro x hx
        rcases List.mem_cons.1 hx with rfl | hx'
        · split
          · next hr => exact List.elem_iff.1 hr
          · exact List.mem_append_right _ (List.mem_singleton.2 rfl)
        · split
          · exact hsub hx'
          · exact List.mem_append_left _ (hsub hx')
    | enqueueJobIds q large arg now =>
      unfold applyOp
      dsimp only
      split <;> exact hsub
    | enqueueRawJobs q arg now =>
      unfold applyOp
      dsimp only
      split <;> exact hsub
    | removeRawJobs q params =>
      unfold applyOp
      dsimp only
      split <;> exact hsub
    | emptyOp q =>
      unfold applyOp
      exact hsub
    | dequeueRaw q pushback now max_jobs =>
      unfold applyOp
      exact hsub
    | dequeueList q large max_jobs now =>
      unfold applyOp
      exact hsub

/-- C9 witness: constructing `Queue("q1")` on a fresh state registers the
id in the cache and the distributed set. -/
theorem C9_known_queues_registry_witness :
    pys "q1" ∈ (applyOp (.construct (pys "q1")) ⟨[], [], fun _ => {}, []⟩).knownCache ∧
    pys "q1" ∈ (applyOp (.construct (pys "q1")) ⟨[], [], fun _ => {}, []⟩).knownRedis := by
  have hid : (Queue.make (pys "q1")).id = pys "q1" := by decide
  have h := C9_known_queues_registry.1 ⟨[], [], fun _ => {}, []⟩ (pys "q1")
    (List.nil_subset _)
  rw [hid] at h
  exact h
